import Mathlib

/-! # sync-weaviate-ids

A shallow embedding of `backend/scripts/sync-weaviate-ids.js`, the job that copies
the identifier of a vector-store object into the `weaviateId` field of the product
record with the same name.

The two stores are external. The document store is a list of records; every
awaited call may reject, and what each call does is fixed by a `World`, indexed for
the calls of the loop by the position of the candidate being processed, so that
every pattern of per-item failures is some `World`.

The console is modelled with the text each call prints. A call with one argument
prints it; the call of line 73 has two, so its first argument is a format string
and is put through `format`, the embedding of `util.format`.
-/

namespace SyncWeaviateIds

/-! ## Data model -/

/-- Modelled from the spec: the `Product` model of `models/Product.js`, a record with
a unique internal identifier, a display name and an optional cross-reference
identifier (absent is `none`). -/
structure Product where
  _id : Nat
  name : String
  weaviateId : Option String
  deriving DecidableEq, Repr

/-- The `_additional { id }` sub-object requested from the search service. -/
structure Additional where
  id : String
  deriving DecidableEq, Repr

/-- One element of `resp.data.Get.Product`; `_additional` may be missing in a
malformed response. -/
structure Hit where
  _additional : Option Additional
  deriving DecidableEq, Repr

/-- How the promise of `client.graphql.get()....do()` settles. When it resolves,
`hits` is the value of `resp.data.Get.Product` as a list, or the message of the
`TypeError` raised while reading it (`resp.data.Get.Product` / `hits.length`). -/
inductive Reply where
  | rejected (message : String)
  | resolved (hits : Except String (List Hit))

/-- Modelled from the spec: a vector-store object, "an externally managed record
keyed by an opaque identifier, carrying a name attribute". -/
structure VObject where
  id : String
  name : String
  deriving DecidableEq, Repr

/-- The behaviour of the two external services and of the runtime during one
execution of the script. `none` means the call succeeds, `some message` that it
throws an error with that message. `get k name` and `updateOne k _id wid` are the
calls made while the candidate at position `k` of `toSync` is processed.
`render c message` is the text that `util.format` produces for the placeholder `%c`
from the value `err.message || err` of an error with that message, where that text
is computed by library code of the runtime: `Number`, `parseInt`, `parseFloat`,
`JSON.stringify` and `inspect`. -/
structure World where
  connect : Option String
  client : Option String
  find : Option String
  get : Nat → String → Reply
  updateOne : Nat → Nat → String → Option String
  disconnect : Option String
  render : Char → String → String

/-- The console method that writes a line: `console.log`, `console.warn`,
`console.error`. -/
inductive Channel where
  | log
  | warn
  | error
  deriving DecidableEq, Repr

/-- One line written to the console. -/
structure Line where
  channel : Channel
  text : String
  deriving DecidableEq, Repr

/-- The external calls of the script, recorded in the order they are made. -/
inductive Call where
  | connect (uri : String)
  | client (host : String) (apiKey : String)
  | find
  | get (name : String)
  | updateOne (_id : Nat) (weaviateId : String)
  | disconnect
  deriving DecidableEq, Repr

/-- What one execution has done so far: the content of the document store, the
console output and the external calls. -/
structure State where
  store : List Product
  console : List Line
  calls : List Call
  deriving DecidableEq, Repr

/-- How the promise returned by `main()` settles. -/
inductive Settled where
  | fulfilled
  | rejected (err : String)
  deriving DecidableEq, Repr

/-- The three configuration values read from `process.env`. -/
structure Env where
  MONGO_URI : Option String
  WEAVIATE_HOST : Option String
  WEAVIATE_API_KEY : Option String
  deriving DecidableEq, Repr

/-- The observable result of running the script as a process. -/
structure Run where
  store : List Product
  console : List Line
  calls : List Call
  exit : Nat
  deriving DecidableEq, Repr

/-! ## The document store -/

/-- Modelled from the spec: the query `Product.find({ weaviateId: { $exists: false } })`,
"find records where cross-reference-id field does not exist". -/
def find (store : List Product) : List Product :=
  store.filter (fun p => p.weaviateId.isNone)

/-- Modelled from the spec: `Product.updateOne({ _id }, { $set: { weaviateId: wid } })`,
"update one record by internal id, setting cross-reference-id field": the first
record with that `_id` gets the field, every other record is left as it is. -/
def updateOne : List Product → Nat → String → List Product
  | [], _, _ => []
  | p :: ps, id, wid =>
    if p._id = id then { p with weaviateId := some wid } :: ps
    else p :: updateOne ps id wid

/-! ## The script -/

/-- JavaScript `!value` for a value of `process.env`: undefined or the empty string. -/
def falsy : Option String → Bool
  | none => true
  | some s => s == ""

/-- Records an external call. -/
def State.call (st : State) (c : Call) : State :=
  { st with calls := st.calls ++ [c] }

/-- Writes a line to the console. -/
def State.print (st : State) (ch : Channel) (text : String) : State :=
  { st with console := st.console ++ [⟨ch, text⟩] }

/-- Line 21. -/
def configText : String :=
  "❌ You must set MONGO_URI, WEAVIATE_HOST & WEAVIATE_API_KEY in .env"

/-- Line 41. -/
def foundText (n : Nat) : String :=
  "🔍 Found " ++ toString n ++ " products to sync…"

/-- Line 60. -/
def noMatchText (doc : Product) : String :=
  "⚠️  No Weaviate object found for name=\"" ++ doc.name ++ "\""

/-- Line 71. -/
def syncedText (doc : Product) (wid : String) : String :=
  "✅ Synced \"" ++ doc.name ++ "\" → " ++ wid

/-- The characters that, after `%`, make a placeholder of `util.format` that takes an
argument. -/
def placeholders : List Char :=
  ['s', 'j', 'd', 'O', 'o', 'i', 'f', 'c']

/-- The text `util.format` puts in place of the placeholder `%c` for the value
`err.message || err` of an error with the message given: nothing for `%c`, the
message itself for `%s` when it is not empty (the value is then a string), and what
the runtime renders otherwise. -/
def World.placed (w : World) (message : String) (c : Char) : String :=
  if c = 'c' then ""
  else if c = 's' ∧ message ≠ "" then message
  else w.render c message

/-- The text `util.format` appends for the value `err.message || err` when no
placeholder has taken it: the message when it is not empty, the inspected error
(as for `%O`) when it is. -/
def World.appended (w : World) (message : String) : String :=
  if message ≠ "" then message else w.render 'O' message

/-- The loop of `util.format` over the format string, for a call with one argument
after the format string. `used` tells whether a placeholder has taken the argument.
The result is the text produced, whether the argument is taken, and whether
anything was replaced (`lastPos !== 0`). A `%` is read with the character after it:
`%%` gives `%`; a placeholder takes the argument if it is still there; anything
else stays as it is, as does a `%` at the end. -/
def formatScan (placed : Char → String) : Bool → List Char → List Char × Bool × Bool
  | used, [] => ([], used, false)
  | used, x :: tl =>
    if x = '%' then
      match tl with
      | [] => ([x], used, false)
      | c :: rest =>
        if c = '%' then
          let r := formatScan placed used rest
          ('%' :: r.1, r.2.1, true)
        else if !used && placeholders.contains c then
          let r := formatScan placed true rest
          ((placed c).data ++ r.1, true, true)
        else
          let r := formatScan placed used rest
          (x :: c :: r.1, r.2.1, r.2.2)
    else
      let r := formatScan placed used tl
      (x :: r.1, r.2.1, r.2.2)

/-- The line `console.error(first, err.message || err)` prints, by `util.format`: the
format string with its placeholders replaced, followed by a blank and the argument
unless a placeholder has taken it. -/
def format (w : World) (first message : String) : String :=
  let r := formatScan (w.placed message) false first.data
  if r.2.2 then
    if r.2.1 then String.mk r.1 else String.mk r.1 ++ " " ++ w.appended message
  else first ++ " " ++ w.appended message

/-- Line 73: the first argument of `console.error` holds the name of the record and
is the format string, the second is `err.message || err`. -/
def errorText (w : World) (doc : Product) (message : String) : String :=
  format w ("❌ Error syncing \"" ++ doc.name ++ "\":") message

/-- Line 77. -/
def completeText : String :=
  "🎉 Sync complete."

/-- The message of the `TypeError` of `hits[0]._additional.id` when `_additional`
is undefined. -/
def noAdditionalText : String :=
  "Cannot read properties of undefined (reading 'id')"

/-- The body of the `for` loop (lines 44-74) for the candidate `doc` at position `k`. -/
def syncOne (w : World) (k : Nat) (doc : Product) (st : State) : State :=
  let st := st.call (.get doc.name)
  match w.get k doc.name with
  | .rejected message => st.print .error (errorText w doc message)
  | .resolved (.error message) => st.print .error (errorText w doc message)
  | .resolved (.ok []) => st.print .warn (noMatchText doc)
  | .resolved (.ok (hit :: _)) =>
    match hit._additional with
    | none => st.print .error (errorText w doc noAdditionalText)
    | some a =>
      let wid := a.id
      let st := st.call (.updateOne doc._id wid)
      match w.updateOne k doc._id wid with
      | some message => st.print .error (errorText w doc message)
      | none =>
        State.print { st with store := updateOne st.store doc._id wid } .log
          (syncedText doc wid)

/-- The `for (const doc of toSync)` loop (lines 43-75); `k` is the position of the
first remaining candidate. -/
def syncLoop (w : World) : Nat → List Product → State → State
  | _, [], st => st
  | k, doc :: rest, st => syncLoop w (k + 1) rest (syncOne w k doc st)

/-- The function `main` (lines 25-79). -/
def main (w : World) (uri host apiKey : String) (st : State) : State × Settled :=
  let st := st.call (.connect uri)
  match w.connect with
  | some err => (st, .rejected err)
  | none =>
    let st := st.call (.client host apiKey)
    match w.client with
    | some err => (st, .rejected err)
    | none =>
      let st := st.call .find
      match w.find with
      | some err => (st, .rejected err)
      | none =>
        let toSync := find st.store
        let st := st.print .log (foundText toSync.length)
        let st := syncLoop w 0 toSync st
        let st := st.print .log completeText
        let st := st.call .disconnect
        match w.disconnect with
        | some err => (st, .rejected err)
        | none => (st, .fulfilled)

/-- The module top level: the configuration gate (lines 14-23) and
`main().catch(...)` (lines 81-84). A process whose `main()` is fulfilled ends with
status 0. -/
def script (env : Env) (w : World) (store : List Product) : Run :=
  if falsy env.MONGO_URI || falsy env.WEAVIATE_HOST || falsy env.WEAVIATE_API_KEY then
    { store := store, console := [⟨.error, configText⟩], calls := [], exit := 1 }
  else
    match main w (env.MONGO_URI.getD "") (env.WEAVIATE_HOST.getD "")
        (env.WEAVIATE_API_KEY.getD "") ⟨store, [], []⟩ with
    | (st, .fulfilled) =>
      { store := st.store, console := st.console, calls := st.calls, exit := 0 }
    | (st, .rejected err) =>
      { store := st.store, console := st.console ++ [⟨.error, err⟩], calls := st.calls,
        exit := 1 }

/-! ## Reading a single iteration

Two functions that read off, from the `World`, how the `try` block of one iteration
ends. They are tied to `syncOne` by `syncOne_store`, `written_thrown` and `report_thrown`. -/

/-- The message of the error caught by the `catch` block (line 72) while the candidate
`doc` at position `k` is processed, if an error is raised there. -/
def thrown (w : World) (k : Nat) (doc : Product) : Option String :=
  match w.get k doc.name with
  | .rejected message => some message
  | .resolved (.error message) => some message
  | .resolved (.ok []) => none
  | .resolved (.ok (hit :: _)) =>
    match hit._additional with
    | none => some noAdditionalText
    | some a => w.updateOne k doc._id a.id

/-- The identifier written for the candidate `doc` at position `k`, when its
`updateOne` is issued and succeeds. -/
def written (w : World) (k : Nat) (doc : Product) : Option String :=
  match w.get k doc.name with
  | .resolved (.ok (hit :: _)) =>
    match hit._additional with
    | some a => if w.updateOne k doc._id a.id = none then some a.id else none
    | none => none
  | _ => none

/-- The number of candidates of `cs`, processed from position `k` on, whose
`updateOne` is issued and succeeds. -/
def syncedCount (w : World) : Nat → List Product → Nat
  | _, [] => 0
  | k, doc :: rest => (if (written w k doc).isSome then 1 else 0) + syncedCount w (k + 1) rest

/-- The external calls made by the iteration for `doc` at position `k`. -/
def block (w : World) (k : Nat) (doc : Product) : List Call :=
  (syncOne w k doc ⟨[], [], []⟩).calls

/-- The console lines written by the iteration for `doc` at position `k`. -/
def report (w : World) (k : Nat) (doc : Product) : List Line :=
  (syncOne w k doc ⟨[], [], []⟩).console

/-- The calls of the loop, one block per candidate. -/
def blocks (w : World) : Nat → List Product → List (List Call)
  | _, [] => []
  | k, doc :: rest => block w k doc :: blocks w (k + 1) rest

/-- The console lines of the loop, one report per candidate. -/
def reports (w : World) : Nat → List Product → List (List Line)
  | _, [] => []
  | k, doc :: rest => report w k doc :: reports w (k + 1) rest

/-- The state in which the loop starts: `connect`, `weaviate.client` and the
candidate query have succeeded and the number of candidates has been printed. -/
def started (uri host apiKey : String) (st : State) : State :=
  State.print (State.call (State.call (State.call st (.connect uri)) (.client host apiKey)) .find)
    .log (foundText (find st.store).length)

/-- Whether a call is an `updateOne` on the record with internal id `id`. -/
def Call.writes (id : Nat) : Call → Bool
  | .updateOne id' _ => id' == id
  | _ => false

/-- Two stores hold records with the same internal ids in the same order, and the
same record wherever the internal id is not `id`. -/
def AgreeOff (id : Nat) (s s' : List Product) : Prop :=
  List.Forall₂ (fun p q => p._id = q._id ∧ (p._id ≠ id → p = q)) s s'

/-- The search service honours the query it is sent (class `Product`, `Equal` on the
path `name` with the name given, the field `_additional { id }`, limit 1): every
hit list it returns has at most one element, and each hit carries the identifier of
an object of the vector store whose name is the name asked for. -/
def Honours (w : World) (objects : List VObject) : Prop :=
  ∀ k name hits, w.get k name = .resolved (.ok hits) →
    hits.length ≤ 1 ∧
    ∀ h ∈ hits, ∃ o ∈ objects, o.name = name ∧ h._additional = some ⟨o.id⟩

/-! ## Example data: the end-to-end scenarios of the specification -/

/-- A store with one record to sync that has a match, one record already synced
and one record to sync without a match. -/
def widgetStore : List Product :=
  [⟨1, "Widget", none⟩, ⟨2, "Gadget", some "abc"⟩, ⟨3, "Unknown", none⟩]

/-- What the runtime renders for a message that is not a numeral and holds no quote
or escape: `NaN` for `%d`, `%i` and `%f`, the message between double quotes for `%j`
and between single quotes for `%o` and `%O`. -/
def nodeRender (c : Char) (message : String) : String :=
  if c = 'd' ∨ c = 'i' ∨ c = 'f' then "NaN"
  else if c = 'j' then "\"" ++ message ++ "\""
  else "'" ++ message ++ "'"

/-- The search service holds one object, `w-100`, named `Widget`; no call fails. -/
def widgetWorld : World where
  connect := none
  client := none
  find := none
  get := fun _ name =>
    if name = "Widget" then .resolved (.ok [⟨some ⟨"w-100"⟩⟩]) else .resolved (.ok [])
  updateOne := fun _ _ _ => none
  disconnect := none
  render := nodeRender

/-- The world of `widgetWorld`, except that the lookup of the first candidate is
rejected. -/
def resetWorld : World where
  connect := none
  client := none
  find := none
  get := fun k name => if k = 0 then .rejected "ECONNRESET" else widgetWorld.get k name
  updateOne := fun _ _ _ => none
  disconnect := none
  render := nodeRender

/-- A configuration with the three values set. -/
def widgetEnv : Env :=
  ⟨some "mongodb://db", some "host", some "key"⟩

/-- A configuration without `WEAVIATE_API_KEY`. -/
def noKeyEnv : Env :=
  ⟨some "mongodb://db", some "host", none⟩

/-- A configuration whose `WEAVIATE_API_KEY` is set to the empty string. -/
def emptyKeyEnv : Env :=
  ⟨some "mongodb://db", some "host", some ""⟩

/-- The world of `widgetWorld`, except that the final `mongoose.disconnect` is
rejected. -/
def closeWorld : World where
  connect := none
  client := none
  find := none
  get := widgetWorld.get
  updateOne := fun _ _ _ => none
  disconnect := some "MongoNetworkError"
  render := nodeRender

/-- The world of `widgetWorld`, except that `mongoose.connect` is rejected. -/
def refusedWorld : World where
  connect := some "ECONNREFUSED"
  client := none
  find := none
  get := widgetWorld.get
  updateOne := fun _ _ _ => none
  disconnect := none
  render := nodeRender

/-- The vector store of the end-to-end scenario. -/
def widgetObjects : List VObject :=
  [⟨"w-100", "Widget"⟩]

/-- A store whose only record has a name that holds the placeholder `%s`. -/
def percentStore : List Product :=
  [⟨5, "100%s", none⟩]

/-- A store whose only record differs from the object `Widget` by letter case. -/
def lowerStore : List Product :=
  [⟨4, "widget", none⟩]

/-! ## The document store: lemmas -/

theorem updateOne_map_id (s : List Product) (id : Nat) (wid : String) :
    (updateOne s id wid).map Product._id = s.map Product._id := by
  induction s with
  | nil => rfl
  | cons p ps ih =>
    unfold updateOne
    split
    · simp
    · simp [ih]

theorem updateOne_map_name (s : List Product) (id : Nat) (wid : String) :
    (updateOne s id wid).map Product.name = s.map Product.name := by
  induction s with
  | nil => rfl
  | cons p ps ih =>
    unfold updateOne
    split
    · simp
    · simp [ih]

theorem updateOne_length (s : List Product) (id : Nat) (wid : String) :
    (updateOne s id wid).length = s.length := by
  have h := congrArg List.length (updateOne_map_id s id wid)
  simpa using h

/-- A record with another internal id keeps its place and its content. -/
theorem updateOne_getElem?_ne (s : List Product) (id : Nat) (wid : String) (j : Nat)
    (p : Product) (hj : s[j]? = some p) (hne : p._id ≠ id) :
    (updateOne s id wid)[j]? = some p := by
  induction s generalizing j with
  | nil => simp at hj
  | cons q qs ih =>
    unfold updateOne
    cases j with
    | zero =>
      simp at hj
      subst hj
      simp [hne]
    | succ j =>
      simp at hj
      split
      · simpa using hj
      · simpa using ih j hj

/-- With unique internal ids, the record with the id given is the one updated. -/
theorem updateOne_getElem?_eq (s : List Product) (wid : String) (j : Nat) (p : Product)
    (hnd : (s.map Product._id).Nodup) (hj : s[j]? = some p) :
    (updateOne s p._id wid)[j]? = some { p with weaviateId := some wid } := by
  induction s generalizing j with
  | nil => simp at hj
  | cons q qs ih =>
    unfold updateOne
    cases j with
    | zero =>
      simp at hj
      subst hj
      simp
    | succ j =>
      simp at hj
      have hmem : p ∈ qs := List.getElem?_mem hj
      simp only [List.map_cons, List.nodup_cons] at hnd
      have hq : q._id ≠ p._id := by
        intro h
        exact hnd.1 (h ▸ List.mem_map_of_mem Product._id hmem)
      simp [hq]
      exact ih j hnd.2 hj

/-! ## The format string: lemmas -/

/-- A format string without `%` goes through the loop of `util.format` untouched. -/
theorem formatScan_plain (placed : Char → String) (used : Bool) (l : List Char)
    (h : '%' ∉ l) : formatScan placed used l = (l, used, false) := by
  induction l with
  | nil => rfl
  | cons x tl ih =>
    simp only [List.mem_cons, not_or] at h
    have hx : ¬ x = '%' := fun e => h.1 e.symm
    rw [formatScan.eq_def]
    simp only [if_neg hx, ih h.2]

/-- With a format string without `%` and a message that is not empty, the line is the
format string, a blank and the message. -/
theorem format_plain (w : World) (first message : String) (h : '%' ∉ first.data)
    (hm : message ≠ "") : format w first message = first ++ " " ++ message := by
  unfold format
  rw [formatScan_plain _ _ _ h]
  simp [World.appended, hm]

/-- When the name of the record holds no `%` and the message is not empty, line 73
prints the name and the message as they are. -/
theorem errorText_plain (w : World) (doc : Product) (message : String)
    (h : '%' ∉ doc.name.data) (hm : message ≠ "") :
    errorText w doc message = "❌ Error syncing \"" ++ doc.name ++ "\": " ++ message := by
  unfold errorText
  rw [format_plain _ _ _ _ hm]
  · simp only [String.append_assoc]
    rfl
  · simp only [String.data_append, List.mem_append, not_or]
    exact ⟨⟨by decide, h⟩, by decide⟩

/-! ## One iteration: lemmas -/

/-- An iteration only appends to the list of calls. -/
theorem syncOne_calls (w : World) (k : Nat) (doc : Product) (st : State) :
    (syncOne w k doc st).calls = st.calls ++ block w k doc := by
  unfold block syncOne
  simp only [State.call, State.print]
  split
  · simp
  · simp
  · simp
  · split
    · simp
    · split <;> simp

/-- An iteration only appends to the console. -/
theorem syncOne_console (w : World) (k : Nat) (doc : Product) (st : State) :
    (syncOne w k doc st).console = st.console ++ report w k doc := by
  unfold report syncOne
  simp only [State.call, State.print]
  split
  · simp
  · simp
  · simp
  · split
    · simp
    · split <;> simp

/-- The store after an iteration: one `updateOne` when an identifier is written,
nothing otherwise. -/
theorem syncOne_store (w : World) (k : Nat) (doc : Product) (st : State) :
    (syncOne w k doc st).store =
      match written w k doc with
      | some wid => updateOne st.store doc._id wid
      | none => st.store := by
  unfold written syncOne
  simp only [State.call, State.print]
  cases hg : w.get k doc.name with
  | rejected m => simp
  | resolved r =>
    cases r with
    | error m => simp
    | ok hits =>
      cases hits with
      | nil => simp
      | cons hit tl =>
        cases ha : hit._additional with
        | none => simp [ha]
        | some a => cases hu : w.updateOne k doc._id a.id <;> simp [ha, hu]

/-- An iteration that raises an error writes one line, on the error channel, made
of the name of the record and the message. -/
theorem report_thrown (w : World) (k : Nat) (doc : Product) (message : String)
    (h : thrown w k doc = some message) :
    report w k doc = [⟨.error, errorText w doc message⟩] := by
  unfold thrown at h
  unfold report syncOne
  simp only [State.call, State.print]
  split at h
  · simp_all
  · simp_all
  · simp at h
  · split at h
    · simp_all
    · simp_all

/-- An iteration that raises an error writes no identifier. -/
theorem written_thrown (w : World) (k : Nat) (doc : Product) (message : String)
    (h : thrown w k doc = some message) : written w k doc = none := by
  unfold thrown at h
  unfold written
  split at h
  · simp_all
  · simp_all
  · simp at h
  · split at h
    · simp_all
    · simp_all

/-! ## The loop: lemmas -/

theorem syncLoop_append (w : World) (k : Nat) (pre post : List Product) (st : State) :
    syncLoop w k (pre ++ post) st = syncLoop w (k + pre.length) post (syncLoop w k pre st) := by
  induction pre generalizing k st with
  | nil => simp [syncLoop]
  | cons d ds ih =>
    show syncLoop w (k + 1) (ds ++ post) (syncOne w k d st) =
      syncLoop w (k + (ds.length + 1)) post (syncLoop w (k + 1) ds (syncOne w k d st))
    rw [ih, Nat.add_assoc, Nat.add_comm 1]

theorem syncLoop_calls (w : World) (k : Nat) (cs : List Product) (st : State) :
    (syncLoop w k cs st).calls = st.calls ++ (blocks w k cs).flatten := by
  induction cs generalizing k st with
  | nil => simp [syncLoop, blocks]
  | cons d ds ih => simp [syncLoop, blocks, ih, syncOne_calls]

theorem syncLoop_console (w : World) (k : Nat) (cs : List Product) (st : State) :
    (syncLoop w k cs st).console = st.console ++ (reports w k cs).flatten := by
  induction cs generalizing k st with
  | nil => simp [syncLoop, reports]
  | cons d ds ih => simp [syncLoop, reports, ih, syncOne_console]

theorem syncOne_map_id (w : World) (k : Nat) (doc : Product) (st : State) :
    (syncOne w k doc st).store.map Product._id = st.store.map Product._id := by
  rw [syncOne_store]
  split
  · exact updateOne_map_id _ _ _
  · rfl

theorem syncOne_map_name (w : World) (k : Nat) (doc : Product) (st : State) :
    (syncOne w k doc st).store.map Product.name = st.store.map Product.name := by
  rw [syncOne_store]
  split
  · exact updateOne_map_name _ _ _
  · rfl

theorem syncLoop_map_id (w : World) (k : Nat) (cs : List Product) (st : State) :
    (syncLoop w k cs st).store.map Product._id = st.store.map Product._id := by
  induction cs generalizing k st with
  | nil => simp [syncLoop]
  | cons d ds ih => simp [syncLoop, ih, syncOne_map_id]

theorem syncLoop_map_name (w : World) (k : Nat) (cs : List Product) (st : State) :
    (syncLoop w k cs st).store.map Product.name = st.store.map Product.name := by
  induction cs generalizing k st with
  | nil => simp [syncLoop]
  | cons d ds ih => simp [syncLoop, ih, syncOne_map_name]

/-- A record whose internal id is the id of no candidate keeps its place and its
content through the loop. -/
theorem syncLoop_getElem?_of_not_mem (w : World) (k : Nat) (cs : List Product) (st : State)
    (j : Nat) (p : Product) (hj : st.store[j]? = some p)
    (hp : p._id ∉ cs.map Product._id) :
    (syncLoop w k cs st).store[j]? = some p := by
  induction cs generalizing k st with
  | nil => simpa [syncLoop] using hj
  | cons d ds ih =>
    simp only [List.map_cons, List.mem_cons, not_or] at hp
    simp only [syncLoop]
    apply ih _ _ _ hp.2
    rw [syncOne_store]
    split
    · exact updateOne_getElem?_ne _ _ _ _ _ hj hp.1
    · exact hj

/-- What the loop does to the record of a candidate, when internal ids are unique:
the identifier written at its own iteration, if any, and nothing else. -/
theorem syncLoop_getElem?_of_candidate (w : World) (k : Nat) (cs : List Product)
    (st : State) (i j : Nat) (doc : Product)
    (hst : (st.store.map Product._id).Nodup) (hcs : (cs.map Product._id).Nodup)
    (hi : cs[i]? = some doc) (hj : st.store[j]? = some doc) :
    (syncLoop w k cs st).store[j]? =
      some (match written w (k + i) doc with
        | some wid => { doc with weaviateId := some wid }
        | none => doc) := by
  induction cs generalizing k st i with
  | nil => simp at hi
  | cons d ds ih =>
    simp only [List.map_cons, List.nodup_cons] at hcs
    cases i with
    | zero =>
      simp at hi
      subst hi
      simp only [syncLoop, Nat.add_zero]
      apply syncLoop_getElem?_of_not_mem
      · rw [syncOne_store]
        cases hw : written w k d with
        | none => simpa using hj
        | some wid => simpa using updateOne_getElem?_eq _ wid _ _ hst hj
      · cases hw : written w k d <;> simpa using hcs.1
    | succ i =>
      simp at hi
      have hmem : doc ∈ ds := List.getElem?_mem hi
      have hne : doc._id ≠ d._id := by
        intro h
        exact hcs.1 (h ▸ List.mem_map_of_mem Product._id hmem)
      simp only [syncLoop]
      have h := ih (k + 1) (syncOne w k d st) i (by rw [syncOne_map_id]; exact hst) hcs.2 hi
        (by
          rw [syncOne_store]
          split
          · exact updateOne_getElem?_ne _ _ _ _ _ hj hne
          · exact hj)
      rw [h, Nat.add_assoc, Nat.add_comm 1]

/-! ## The candidate query: lemmas -/

theorem mem_find {store : List Product} {p : Product} :
    p ∈ find store ↔ p ∈ store ∧ p.weaviateId = none := by
  simp [find, List.mem_filter]

theorem find_nodup {store : List Product} (h : (store.map Product._id).Nodup) :
    ((find store).map Product._id).Nodup :=
  List.Nodup.sublist (List.Sublist.map _ (List.filter_sublist _)) h

/-- With unique internal ids, two records of the store with the same id are equal. -/
theorem eq_of_id_eq {store : List Product} (h : (store.map Product._id).Nodup)
    {p q : Product} (hp : p ∈ store) (hq : q ∈ store) (hid : p._id = q._id) : p = q :=
  List.inj_on_of_nodup_map h hp hq hid

/-! ## `main`: lemmas -/

/-- When `connect`, `weaviate.client` and the candidate query succeed, `main` runs the
loop over the candidates, prints the completion line and disconnects. -/
theorem main_state (w : World) (uri host apiKey : String) (st : State)
    (hconnect : w.connect = none) (hclient : w.client = none) (hfind : w.find = none) :
    (main w uri host apiKey st).1 =
      State.call (State.print (syncLoop w 0 (find st.store) (started uri host apiKey st))
        .log completeText) .disconnect := by
  unfold main
  simp only [hconnect, hclient, hfind]
  cases w.disconnect <;> rfl

theorem main_store (w : World) (uri host apiKey : String) (st : State)
    (hconnect : w.connect = none) (hclient : w.client = none) (hfind : w.find = none) :
    (main w uri host apiKey st).1.store =
      (syncLoop w 0 (find st.store) (started uri host apiKey st)).store := by
  rw [main_state w uri host apiKey st hconnect hclient hfind]
  rfl

theorem main_calls (w : World) (uri host apiKey : String) (st : State)
    (hconnect : w.connect = none) (hclient : w.client = none) (hfind : w.find = none) :
    (main w uri host apiKey st).1.calls =
      st.calls ++ [.connect uri, .client host apiKey, .find] ++
        (blocks w 0 (find st.store)).flatten ++ [.disconnect] := by
  rw [main_state w uri host apiKey st hconnect hclient hfind]
  simp [State.call, State.print, syncLoop_calls, started]

theorem main_console (w : World) (uri host apiKey : String) (st : State)
    (hconnect : w.connect = none) (hclient : w.client = none) (hfind : w.find = none) :
    (main w uri host apiKey st).1.console =
      st.console ++ [⟨.log, foundText (find st.store).length⟩] ++
        (reports w 0 (find st.store)).flatten ++ [⟨.log, completeText⟩] := by
  rw [main_state w uri host apiKey st hconnect hclient hfind]
  simp [State.call, State.print, syncLoop_console, started]

/-- Every call of a block is the lookup of the record or an `updateOne` on it, the
latter only with the identifier of the first hit of a non-empty hit list. -/
theorem mem_block (w : World) (k : Nat) (doc : Product) (c : Call) (hc : c ∈ block w k doc) :
    c = .get doc.name ∨
      ∃ hit rest a, w.get k doc.name = .resolved (.ok (hit :: rest)) ∧
        hit._additional = some a ∧ c = .updateOne doc._id a.id := by
  unfold block syncOne at hc
  simp only [State.call, State.print] at hc
  cases hg : w.get k doc.name with
  | rejected m => simp [hg] at hc; exact Or.inl hc
  | resolved r =>
    cases r with
    | error m => simp [hg] at hc; exact Or.inl hc
    | ok hits =>
      cases hits with
      | nil => simp [hg] at hc; exact Or.inl hc
      | cons hit tl =>
        cases ha : hit._additional with
        | none => simp [hg, ha] at hc; exact Or.inl hc
        | some a =>
          cases hu : w.updateOne k doc._id a.id <;> simp [hg, ha, hu] at hc
          all_goals
            rcases hc with hc | hc
            · exact Or.inl hc
            · exact Or.inr ⟨hit, tl, a, rfl, ha, hc⟩

/-- Every call of the loop belongs to the block of some candidate. -/
theorem mem_blocks (w : World) (k : Nat) (cs : List Product) (c : Call)
    (hc : c ∈ (blocks w k cs).flatten) :
    ∃ m d, cs[m]? = some d ∧ c ∈ block w (k + m) d := by
  induction cs generalizing k with
  | nil => simp [blocks] at hc
  | cons d ds ih =>
    simp only [blocks, List.flatten_cons, List.mem_append] at hc
    rcases hc with hc | hc
    · exact ⟨0, d, by simp, by simpa using hc⟩
    · obtain ⟨m, e, hm, he⟩ := ih (k + 1) hc
      refine ⟨m + 1, e, by simpa using hm, ?_⟩
      rw [Nat.add_assoc, Nat.add_comm 1] at he
      exact he

/-- With unique internal ids, a candidate is found at one position only. -/
theorem candidate_index_unique {cs : List Product} (hcs : (cs.map Product._id).Nodup)
    {m i : Nat} {d doc : Product} (hm : cs[m]? = some d) (hi : cs[i]? = some doc)
    (hid : d._id = doc._id) : m = i := by
  have hlt : m < (cs.map Product._id).length := by
    have := (List.getElem?_eq_some_iff.mp hm).1
    simpa using this
  apply List.getElem?_inj hlt hcs
  simp [List.getElem?_map, hm, hi, hid]

/-! ## Runs in two worlds -/

theorem syncOne_congr (w w' : World) (k : Nat) (doc : Product) (st : State)
    (hg : w'.get k = w.get k) (hu : w'.updateOne k = w.updateOne k)
    (hr : w'.render = w.render) :
    syncOne w' k doc st = syncOne w k doc st := by
  have he : ∀ message, errorText w' doc message = errorText w doc message := by
    intro message
    have hp : w'.placed message = w.placed message := by
      funext c
      simp only [World.placed, hr]
    have ha : w'.appended message = w.appended message := by
      simp only [World.appended, hr]
    simp only [errorText, format, hp, ha]
  unfold syncOne
  simp only [hg, hu, he]

theorem syncLoop_congr (w w' : World) (k : Nat) (cs : List Product) (st : State)
    (h : ∀ m, k ≤ m → m < k + cs.length →
      w'.get m = w.get m ∧ w'.updateOne m = w.updateOne m)
    (hr : w'.render = w.render) :
    syncLoop w' k cs st = syncLoop w k cs st := by
  induction cs generalizing k st with
  | nil => rfl
  | cons d ds ih =>
    simp only [syncLoop]
    have h0 := h k (Nat.le_refl k) (by simp)
    rw [syncOne_congr w w' k d st h0.1 h0.2 hr]
    apply ih
    intro m hm1 hm2
    apply h m (by omega)
    simp only [List.length_cons]
    omega

theorem agreeOff_refl (x : Nat) (s : List Product) : AgreeOff x s s := by
  induction s with
  | nil => exact List.Forall₂.nil
  | cons p ps ih => exact List.Forall₂.cons ⟨rfl, fun _ => rfl⟩ ih

theorem agreeOff_updateOne (x y : Nat) (wid : String) {s s' : List Product}
    (h : AgreeOff x s s') : AgreeOff x (updateOne s y wid) (updateOne s' y wid) := by
  induction h with
  | nil => exact List.Forall₂.nil
  | @cons p q ps qs hpq hrest ih =>
    unfold updateOne
    by_cases hp : p._id = y
    · have hq : q._id = y := hpq.1 ▸ hp
      rw [if_pos hp, if_pos hq]
      refine List.Forall₂.cons ⟨hpq.1, fun hne => ?_⟩ hrest
      have := hpq.2 hne
      subst this
      rfl
    · have hq : ¬ q._id = y := hpq.1 ▸ hp
      rw [if_neg hp, if_neg hq]
      exact List.Forall₂.cons hpq ih

theorem agreeOff_updateOne_left (x : Nat) (wid : String) {s s' : List Product}
    (h : AgreeOff x s s') : AgreeOff x (updateOne s x wid) s' := by
  induction h with
  | nil => exact List.Forall₂.nil
  | @cons p q ps qs hpq hrest ih =>
    unfold updateOne
    by_cases hp : p._id = x
    · rw [if_pos hp]
      exact List.Forall₂.cons ⟨hpq.1, fun hne => absurd hp hne⟩ hrest
    · rw [if_neg hp]
      exact List.Forall₂.cons hpq ih

theorem agreeOff_updateOne_right (x : Nat) (wid : String) {s s' : List Product}
    (h : AgreeOff x s s') : AgreeOff x s (updateOne s' x wid) := by
  induction h with
  | nil => exact List.Forall₂.nil
  | @cons p q ps qs hpq hrest ih =>
    unfold updateOne
    by_cases hq : q._id = x
    · rw [if_pos hq]
      exact List.Forall₂.cons ⟨hpq.1, fun hne => absurd (hpq.1.trans hq) hne⟩ hrest
    · rw [if_neg hq]
      exact List.Forall₂.cons hpq ih

theorem agreeOff_getElem? {x : Nat} {s s' : List Product} (h : AgreeOff x s s') (j : Nat)
    (p : Product) (hj : s[j]? = some p) (hne : p._id ≠ x) : s'[j]? = some p := by
  induction h generalizing j with
  | nil => simp at hj
  | @cons a b as bs hab _ ih =>
    cases j with
    | zero =>
      simp at hj
      subst hj
      simp [hab.2 hne]
    | succ j =>
      simp at hj
      simpa using ih j hj

/-- Whatever the two worlds do at the iteration of `doc`, the stores differ at most
in the records with the internal id of `doc`. -/
theorem syncOne_agreeOff_self (w w' : World) (k : Nat) (doc : Product) (st : State) :
    AgreeOff doc._id (syncOne w k doc st).store (syncOne w' k doc st).store := by
  rw [syncOne_store, syncOne_store]
  cases written w k doc <;> cases written w' k doc
  · exact agreeOff_refl _ _
  · exact agreeOff_updateOne_right _ _ (agreeOff_refl _ _)
  · exact agreeOff_updateOne_left _ _ (agreeOff_refl _ _)
  · exact agreeOff_updateOne_left _ _ (agreeOff_updateOne_right _ _ (agreeOff_refl _ _))

/-- The same iterations keep two stores in agreement. -/
theorem syncLoop_agreeOff (w : World) (x k : Nat) (cs : List Product) (st st' : State)
    (h : AgreeOff x st.store st'.store) :
    AgreeOff x (syncLoop w k cs st).store (syncLoop w k cs st').store := by
  induction cs generalizing k st st' with
  | nil => exact h
  | cons d ds ih =>
    simp only [syncLoop]
    apply ih
    rw [syncOne_store, syncOne_store]
    cases written w k d
    · exact h
    · exact agreeOff_updateOne _ _ _ h

/-- A list is what comes before position `i`, the element there and what follows. -/
theorem split_at {cs : List Product} {i : Nat} {doc : Product} (hi : cs[i]? = some doc) :
    cs = cs.take i ++ doc :: cs.drop (i + 1) ∧ (cs.take i).length = i := by
  have hlt : i < cs.length := (List.getElem?_eq_some_iff.mp hi).1
  have hget : cs[i] = doc := (List.getElem?_eq_some_iff.mp hi).2
  refine ⟨?_, ?_⟩
  · rw [← hget, List.getElem_cons_drop, List.take_append_drop]
  · rw [List.length_take]
    omega

/-- The loop is the iterations before position `i`, the iteration at `i` and the
iterations after it. -/
theorem syncLoop_split (w : World) (cs : List Product) (st : State) (i : Nat) (doc : Product)
    (hi : cs[i]? = some doc) :
    syncLoop w 0 cs st =
      syncLoop w (i + 1) (cs.drop (i + 1)) (syncOne w i doc (syncLoop w 0 (cs.take i) st)) := by
  obtain ⟨hsplit, hlen⟩ := split_at hi
  conv_lhs => rw [hsplit]
  rw [syncLoop_append, hlen, Nat.zero_add]
  rfl

/-! ## Counting the candidates -/

theorem mem_updateOne_of_ne {s : List Product} {p : Product} (id : Nat) (wid : String)
    (hp : p ∈ s) (hne : p._id ≠ id) : p ∈ updateOne s id wid := by
  obtain ⟨j, hj⟩ := List.getElem?_of_mem hp
  exact List.getElem?_mem (updateOne_getElem?_ne s id wid j p hj hne)

/-- With unique internal ids, writing the identifier of a candidate removes one
record from the result of the candidate query. -/
theorem find_length_updateOne (s : List Product) (d : Product) (wid : String)
    (hnd : (s.map Product._id).Nodup) (hd : d ∈ s) (hnone : d.weaviateId = none) :
    (find (updateOne s d._id wid)).length + 1 = (find s).length := by
  induction s with
  | nil => simp at hd
  | cons p ps ih =>
    simp only [List.map_cons, List.nodup_cons] at hnd
    unfold updateOne
    by_cases hp : p._id = d._id
    · rw [if_pos hp]
      have hpd : p = d := by
        rcases List.mem_cons.mp hd with h | h
        · exact h.symm
        · exact absurd (hp ▸ List.mem_map_of_mem Product._id h) hnd.1
      subst hpd
      simp [find, List.filter_cons, hnone]
    · rw [if_neg hp]
      have hd' : d ∈ ps := by
        rcases List.mem_cons.mp hd with h | h
        · exact absurd (h ▸ rfl) hp
        · exact h
      have := ih hnd.2 hd'
      unfold find at this ⊢
      simp only [List.filter_cons]
      split
      · simp only [List.length_cons]
        omega
      · exact this

/-- Every successful update of the loop removes one record from the result of the
candidate query, when internal ids are unique and the candidates are records of the
store without identifier. -/
theorem find_length_syncLoop (w : World) (k : Nat) (cs : List Product) (st : State)
    (hst : (st.store.map Product._id).Nodup) (hcs : (cs.map Product._id).Nodup)
    (hmem : ∀ d ∈ cs, d ∈ st.store ∧ d.weaviateId = none) :
    (find (syncLoop w k cs st).store).length + syncedCount w k cs = (find st.store).length := by
  induction cs generalizing k st with
  | nil => simp [syncLoop, syncedCount]
  | cons d ds ih =>
    simp only [List.map_cons, List.nodup_cons] at hcs
    simp only [syncLoop, syncedCount]
    have hd := hmem d (List.mem_cons_self _ _)
    have hrest : ∀ e ∈ ds, e ∈ (syncOne w k d st).store ∧ e.weaviateId = none := by
      intro e he
      have hes := hmem e (List.mem_cons_of_mem _ he)
      refine ⟨?_, hes.2⟩
      rw [syncOne_store]
      split
      · apply mem_updateOne_of_ne _ _ hes.1
        intro h
        exact hcs.1 (h ▸ List.mem_map_of_mem Product._id he)
      · exact hes.1
    have hih := ih (k + 1) (syncOne w k d st) (by rw [syncOne_map_id]; exact hst) hcs.2 hrest
    have hone : (find (syncOne w k d st).store).length +
        (if (written w k d).isSome then 1 else 0) = (find st.store).length := by
      rw [syncOne_store]
      cases hw : written w k d with
      | none => simp
      | some wid => simpa using find_length_updateOne st.store d wid hst hd.1 hd.2
    omega

/-! ## The effect of `main` on each record -/

/-- When `connect`, `weaviate.client` or the candidate query fails, `main` leaves the
store as it is and calls nothing else. -/
theorem main_failed (w : World) (uri host apiKey : String) (st : State)
    (h : w.connect ≠ none ∨ w.client ≠ none ∨ w.find ≠ none) :
    (main w uri host apiKey st).1.store = st.store ∧
    ∀ c ∈ (main w uri host apiKey st).1.calls,
      c ∈ st.calls ∨ c = .connect uri ∨ c = .client host apiKey ∨ c = .find := by
  unfold main
  cases h1 : w.connect with
  | some e =>
    refine ⟨by simp [State.call], fun c hc => ?_⟩
    simp only [State.call, List.mem_append, List.mem_singleton] at hc
    tauto
  | none =>
    cases h2 : w.client with
    | some e =>
      refine ⟨by simp [State.call], fun c hc => ?_⟩
      simp only [State.call, List.mem_append, List.mem_singleton] at hc
      tauto
    | none =>
      cases h3 : w.find with
      | some e =>
        refine ⟨by simp [State.call], fun c hc => ?_⟩
        simp only [State.call, List.mem_append, List.mem_singleton] at hc
        tauto
      | none => simp [h1, h2, h3] at h

/-- Either `connect`, `weaviate.client` and the candidate query all succeed, or one of
them fails. -/
theorem reached_or_failed (w : World) :
    (w.connect = none ∧ w.client = none ∧ w.find = none) ∨
      (w.connect ≠ none ∨ w.client ≠ none ∨ w.find ≠ none) := by
  cases w.connect <;> cases w.client <;> cases w.find <;> simp

theorem written_some {w : World} {k : Nat} {doc : Product} {wid : String}
    (h : written w k doc = some wid) :
    ∃ hit rest a, w.get k doc.name = .resolved (.ok (hit :: rest)) ∧
      hit._additional = some a ∧ a.id = wid ∧ w.updateOne k doc._id a.id = none := by
  unfold written at h
  cases hg : w.get k doc.name with
  | rejected m => simp [hg] at h
  | resolved r =>
    cases r with
    | error m => simp [hg] at h
    | ok hits =>
      cases hits with
      | nil => simp [hg] at h
      | cons hit tl =>
        cases ha : hit._additional with
        | none => simp [hg, ha] at h
        | some a =>
          simp only [hg, ha] at h
          by_cases hu : w.updateOne k doc._id a.id = none
          · rw [if_pos hu] at h
            exact ⟨hit, tl, a, rfl, ha, Option.some.inj h, hu⟩
          · rw [if_neg hu] at h
            cases h

/-- With unique internal ids, `main` leaves each record as it is or, for a candidate,
sets its `weaviateId` to the identifier written at the iteration of that candidate. -/
theorem main_record (w : World) (uri host apiKey : String) (store : List Product)
    (hunique : (store.map Product._id).Nodup) (j : Nat) (p : Product)
    (hj : store[j]? = some p) :
    (main w uri host apiKey ⟨store, [], []⟩).1.store[j]? = some p ∨
      ∃ i wid, (find store)[i]? = some p ∧ written w i p = some wid ∧
        (main w uri host apiKey ⟨store, [], []⟩).1.store[j]? =
          some { p with weaviateId := some wid } := by
  rcases reached_or_failed w with ⟨h1, h2, h3⟩ | hfail
  · have hms : (main w uri host apiKey ⟨store, [], []⟩).1.store =
        (syncLoop w 0 (find store) (started uri host apiKey ⟨store, [], []⟩)).store :=
      main_store w uri host apiKey _ h1 h2 h3
    rw [hms]
    have hp : p ∈ store := List.getElem?_mem hj
    cases hnone : p.weaviateId with
    | none =>
      have hpc : p ∈ find store := mem_find.mpr ⟨hp, hnone⟩
      obtain ⟨i, hi⟩ := List.getElem?_of_mem hpc
      have h := syncLoop_getElem?_of_candidate w 0 (find store)
        (started uri host apiKey ⟨store, [], []⟩) i j p hunique (find_nodup hunique) hi hj
      rw [Nat.zero_add] at h
      cases hw : written w i p with
      | none =>
        left
        rw [h, hw]
      | some wid =>
        right
        refine ⟨i, wid, hi, hw, ?_⟩
        rw [h, hw]
    | some v =>
      left
      apply syncLoop_getElem?_of_not_mem _ _ _ _ _ _ hj
      intro hmem
      obtain ⟨d, hd, hdid⟩ := List.mem_map.mp hmem
      have hdm := mem_find.mp hd
      have : d = p := eq_of_id_eq hunique hdm.1 hp hdid
      rw [this, hnone] at hdm
      cases hdm.2
  · left
    rw [(main_failed w uri host apiKey ⟨store, [], []⟩ hfail).1]
    exact hj

theorem main_map_id (w : World) (uri host apiKey : String) (store : List Product) :
    (main w uri host apiKey ⟨store, [], []⟩).1.store.map Product._id =
      store.map Product._id := by
  rcases reached_or_failed w with ⟨h1, h2, h3⟩ | hfail
  · rw [main_store w uri host apiKey _ h1 h2 h3, syncLoop_map_id]
    rfl
  · rw [(main_failed w uri host apiKey ⟨store, [], []⟩ hfail).1]

theorem main_map_name (w : World) (uri host apiKey : String) (store : List Product) :
    (main w uri host apiKey ⟨store, [], []⟩).1.store.map Product.name =
      store.map Product.name := by
  rcases reached_or_failed w with ⟨h1, h2, h3⟩ | hfail
  · rw [main_store w uri host apiKey _ h1 h2 h3, syncLoop_map_name]
    rfl
  · rw [(main_failed w uri host apiKey ⟨store, [], []⟩ hfail).1]

/-- Every call of `main` is one of the four calls around the loop, the lookup of the
name of a candidate, or an `updateOne` on the internal id of a candidate. -/
theorem main_call (w : World) (uri host apiKey : String) (store : List Product) (c : Call)
    (hc : c ∈ (main w uri host apiKey ⟨store, [], []⟩).1.calls) :
    c = .connect uri ∨ c = .client host apiKey ∨ c = .find ∨ c = .disconnect ∨
      (∃ d ∈ find store, c = .get d.name) ∨
      (∃ d ∈ find store, ∃ wid, c = .updateOne d._id wid) := by
  rcases reached_or_failed w with ⟨h1, h2, h3⟩ | hfail
  · rw [main_calls w uri host apiKey _ h1 h2 h3] at hc
    simp only [List.nil_append, List.mem_append, List.mem_cons, List.mem_singleton,
      List.not_mem_nil, or_false] at hc
    rcases hc with ((hc | hc | hc) | hc) | hc
    · exact Or.inl hc
    · exact Or.inr (Or.inl hc)
    · exact Or.inr (Or.inr (Or.inl hc))
    · obtain ⟨m, d, hm, hd⟩ := mem_blocks w 0 (find store) c hc
      have hdm : d ∈ find store := List.getElem?_mem hm
      rcases mem_block w (0 + m) d c hd with h | ⟨_, _, a, _, _, h⟩
      · exact Or.inr (Or.inr (Or.inr (Or.inr (Or.inl ⟨d, hdm, h⟩))))
      · exact Or.inr (Or.inr (Or.inr (Or.inr (Or.inr ⟨d, hdm, a.id, h⟩))))
    · exact Or.inr (Or.inr (Or.inr (Or.inl hc)))
  · rcases (main_failed w uri host apiKey ⟨store, [], []⟩ hfail).2 c hc with h | h | h | h
    · cases h
    · exact Or.inl h
    · exact Or.inr (Or.inl h)
    · exact Or.inr (Or.inr (Or.inl h))

/-! ## The shape of the call sequence -/

theorem blocks_length (w : World) (k : Nat) (cs : List Product) :
    (blocks w k cs).length = cs.length := by
  induction cs generalizing k with
  | nil => rfl
  | cons d ds ih => simp [blocks, ih]

theorem blocks_getElem? (w : World) (k : Nat) (cs : List Product) (i : Nat) (doc : Product)
    (hi : cs[i]? = some doc) : (blocks w k cs)[i]? = some (block w (k + i) doc) := by
  induction cs generalizing k i with
  | nil => simp at hi
  | cons d ds ih =>
    cases i with
    | zero =>
      simp at hi
      subst hi
      simp [blocks]
    | succ i =>
      simp at hi
      simp only [blocks, List.getElem?_cons_succ]
      rw [ih (k + 1) i hi, Nat.add_assoc, Nat.add_comm 1]

/-- A block is the lookup alone, or the lookup followed by one `updateOne` on the
same record with the identifier of the first hit of a non-empty hit list. -/
theorem block_eq (w : World) (k : Nat) (doc : Product) :
    block w k doc = [.get doc.name] ∨
      ∃ hit rest a, w.get k doc.name = .resolved (.ok (hit :: rest)) ∧
        hit._additional = some a ∧
        block w k doc = [.get doc.name, .updateOne doc._id a.id] := by
  unfold block syncOne
  simp only [State.call, State.print]
  cases hg : w.get k doc.name with
  | rejected m => simp
  | resolved r =>
    cases r with
    | error m => simp
    | ok hits =>
      cases hits with
      | nil => simp
      | cons hit tl =>
        cases ha : hit._additional with
        | none => simp [ha]
        | some a => cases hu : w.updateOne k doc._id a.id <;> simp [ha, hu]

theorem block_countP (w : World) (k : Nat) (doc : Product) (id : Nat) :
    List.countP (Call.writes id) (block w k doc) ≤ List.count id [doc._id] := by
  rcases block_eq w k doc with h | ⟨_, _, a, _, _, h⟩
  · rw [h]
    simp [Call.writes]
  · rw [h]
    by_cases hid : doc._id = id
    · simp [Call.writes, hid]
    · simp [Call.writes, hid]

theorem blocks_countP (w : World) (k : Nat) (cs : List Product) (id : Nat) :
    List.countP (Call.writes id) (blocks w k cs).flatten ≤
      List.count id (cs.map Product._id) := by
  induction cs generalizing k with
  | nil => simp [blocks]
  | cons d ds ih =>
    simp only [blocks, List.flatten_cons, List.countP_append, List.map_cons]
    have h1 := block_countP w k d id
    have h2 := ih (k + 1)
    have h3 : List.count id (d._id :: ds.map Product._id) =
        List.count id [d._id] + List.count id (ds.map Product._id) := by
      rw [← List.count_append]
      rfl
    omega

/-! ## The claims -/

/-- C1: in a run of `main` over a store with unique internal ids, a candidate whose
lookup returns a non-empty hit list and whose `updateOne` succeeds ends with
`weaviateId` equal to the identifier of the first hit, `hits[0]._additional.id`; the
rest of the record is as before. -/
theorem synced_record_gets_first_hit (w : World) (uri host apiKey : String)
    (store : List Product) (i j : Nat) (doc : Product) (hit : Hit) (rest : List Hit)
    (a : Additional)
    (hconnect : w.connect = none) (hclient : w.client = none) (hfind : w.find = none)
    (hunique : (store.map Product._id).Nodup)
    (hi : (find store)[i]? = some doc) (hj : store[j]? = some doc)
    (hget : w.get i doc.name = .resolved (.ok (hit :: rest)))
    (hid : hit._additional = some a)
    (hupdate : w.updateOne i doc._id a.id = none) :
    (main w uri host apiKey ⟨store, [], []⟩).1.store[j]? =
      some { doc with weaviateId := some a.id } := by
  rw [main_store w uri host apiKey _ hconnect hclient hfind]
  have h := syncLoop_getElem?_of_candidate w 0 (find store)
    (started uri host apiKey ⟨store, [], []⟩) i j doc hunique (find_nodup hunique) hi hj
  rw [h]
  simp [written, hget, hid, hupdate]

/-- The first end-to-end scenario of the specification: `Widget` gets `w-100`. -/
theorem synced_record_gets_first_hit_witness :
    (main widgetWorld "mongodb://db" "host" "key" ⟨widgetStore, [], []⟩).1.store[0]? =
      some ⟨1, "Widget", some "w-100"⟩ :=
  synced_record_gets_first_hit widgetWorld "mongodb://db" "host" "key" widgetStore 0 0
    ⟨1, "Widget", none⟩ ⟨some ⟨"w-100"⟩⟩ [] ⟨"w-100"⟩ rfl rfl rfl (by decide) (by decide)
    (by decide) (by simp [widgetWorld]) rfl rfl

/-- C2: in a run of `main` over a store with unique internal ids, a candidate whose
lookup returns an empty hit list is unchanged by the run, no `updateOne` is issued
for it, and the loop goes on with the next candidate after the lookup and the
warning. -/
theorem unmatched_record_unchanged (w : World) (uri host apiKey : String)
    (store : List Product) (i j : Nat) (doc : Product)
    (hconnect : w.connect = none) (hclient : w.client = none) (hfind : w.find = none)
    (hunique : (store.map Product._id).Nodup)
    (hi : (find store)[i]? = some doc) (hj : store[j]? = some doc)
    (hget : w.get i doc.name = .resolved (.ok [])) :
    (main w uri host apiKey ⟨store, [], []⟩).1.store[j]? = some doc ∧
    doc.weaviateId = none ∧
    (∀ wid, Call.updateOne doc._id wid ∉ (main w uri host apiKey ⟨store, [], []⟩).1.calls) ∧
    syncLoop w 0 (find store) (started uri host apiKey ⟨store, [], []⟩) =
      syncLoop w (i + 1) ((find store).drop (i + 1))
        (State.print
          (State.call (syncLoop w 0 ((find store).take i) (started uri host apiKey ⟨store, [], []⟩))
            (.get doc.name))
          .warn (noMatchText doc)) := by
  refine ⟨?_, ?_, ?_, ?_⟩
  · rw [main_store w uri host apiKey _ hconnect hclient hfind]
    have h := syncLoop_getElem?_of_candidate w 0 (find store)
      (started uri host apiKey ⟨store, [], []⟩) i j doc hunique (find_nodup hunique) hi hj
    rw [h]
    simp [written, hget]
  · exact (mem_find.mp (List.getElem?_mem hi)).2
  · intro wid hmem
    rw [main_calls w uri host apiKey _ hconnect hclient hfind] at hmem
    simp only [List.nil_append, List.mem_append, List.mem_cons, List.mem_singleton,
      List.not_mem_nil, or_false] at hmem
    have hb : Call.updateOne doc._id wid ∈ (blocks w 0 (find store)).flatten := by
      rcases hmem with (h | h) | h
      · rcases h with h | h | h <;> cases h
      · exact h
      · cases h
    obtain ⟨m, d, hm, hd⟩ := mem_blocks w 0 (find store) _ hb
    rcases mem_block w (0 + m) d _ hd with h | ⟨hit, rest, a, hg, _, hc⟩
    · cases h
    · have hdid : d._id = doc._id := by
        injection hc with h1 _
        exact h1.symm
      have hmi : m = i := candidate_index_unique (find_nodup hunique) hm hi hdid
      subst hmi
      have hdd : d = doc := by
        rw [hm] at hi
        exact Option.some.inj hi
      subst hdd
      rw [Nat.zero_add, hget] at hg
      cases hg
  · have hlt : i < (find store).length := (List.getElem?_eq_some_iff.mp hi).1
    have hsplit : find store = (find store).take i ++ doc :: (find store).drop (i + 1) := by
      have hget' : (find store)[i] = doc := (List.getElem?_eq_some_iff.mp hi).2
      rw [← hget', List.getElem_cons_drop, List.take_append_drop]
    conv_lhs => rw [hsplit]
    rw [syncLoop_append]
    have hlen : ((find store).take i).length = i := by
      rw [List.length_take]
      omega
    rw [hlen, Nat.zero_add]
    simp only [syncLoop]
    congr 1
    unfold syncOne
    simp [hget]

/-- The second end-to-end scenario of the specification: `Unknown` has no match. -/
theorem unmatched_record_unchanged_witness :
    (main widgetWorld "mongodb://db" "host" "key" ⟨widgetStore, [], []⟩).1.store[2]? =
      some ⟨3, "Unknown", none⟩ :=
  (unmatched_record_unchanged widgetWorld "mongodb://db" "host" "key" widgetStore 1 2
    ⟨3, "Unknown", none⟩ rfl rfl rfl (by decide) (by decide) (by decide) (by simp [widgetWorld])).1

/-- C3, as stated, fails: line 73 passes the name of the record inside the first
argument of a call of `console.error` with two arguments, which is a format string.
For the record named `100%s` whose lookup is rejected with `ECONNRESET`, the error
is caught and the loop ends normally, but the line printed is
`❌ Error syncing "100ECONNRESET":`, in which the name of the record does not
occur. -/
theorem failure_isolation_counterexample :
    thrown resetWorld 0 ⟨5, "100%s", none⟩ = some "ECONNRESET" ∧
    (syncLoop resetWorld 0 (find percentStore) ⟨percentStore, [], []⟩).console =
      [⟨.error, "❌ Error syncing \"100ECONNRESET\":"⟩] ∧
    ¬ ("100%s".data <:+: "❌ Error syncing \"100ECONNRESET\":".data) := by
  refine ⟨?_, ?_, ?_⟩ <;> decide

/-- C3, amended: when the iteration of the candidate at position `i` raises an error
(rejected lookup, malformed response or failed update, `thrown`), the error is
caught: the store is not touched and one line is written with `console.error`, the
one `util.format` makes of the format string `❌ Error syncing "<name>":` and the
message; when the name holds no `%` and the message is not empty that line is
`❌ Error syncing "<name>": <message>`. The loop goes on at position `i + 1`; and in
any world `w'` that differs from `w` at position `i` only (for instance one where
that candidate does not fail) the calls and the console lines that follow the
iteration of `i` are the same, and every record with another internal id is the
same at the end. The loop of `main` is `syncLoop w 0 (find store)`. -/
theorem failure_isolation (w w' : World) (cs : List Product) (st : State) (i : Nat)
    (doc : Product) (message : String)
    (hi : cs[i]? = some doc) (hthrown : thrown w i doc = some message)
    (hsame : ∀ k, k ≠ i → w'.get k = w.get k ∧ w'.updateOne k = w.updateOne k)
    (hrender : w'.render = w.render) :
    (syncOne w i doc (syncLoop w 0 (cs.take i) st)).store =
        (syncLoop w 0 (cs.take i) st).store ∧
    (syncOne w i doc (syncLoop w 0 (cs.take i) st)).console =
        (syncLoop w 0 (cs.take i) st).console ++
          [⟨.error, format w ("❌ Error syncing \"" ++ doc.name ++ "\":") message⟩] ∧
    ('%' ∉ doc.name.data → message ≠ "" →
      (syncOne w i doc (syncLoop w 0 (cs.take i) st)).console =
        (syncLoop w 0 (cs.take i) st).console ++
          [⟨.error, "❌ Error syncing \"" ++ doc.name ++ "\": " ++ message⟩]) ∧
    syncLoop w 0 cs st =
        syncLoop w (i + 1) (cs.drop (i + 1)) (syncOne w i doc (syncLoop w 0 (cs.take i) st)) ∧
    (syncLoop w 0 cs st).calls =
        (syncOne w i doc (syncLoop w 0 (cs.take i) st)).calls ++
          (blocks w (i + 1) (cs.drop (i + 1))).flatten ∧
    (syncLoop w' 0 cs st).calls =
        (syncOne w' i doc (syncLoop w 0 (cs.take i) st)).calls ++
          (blocks w (i + 1) (cs.drop (i + 1))).flatten ∧
    (syncLoop w 0 cs st).console =
        (syncOne w i doc (syncLoop w 0 (cs.take i) st)).console ++
          (reports w (i + 1) (cs.drop (i + 1))).flatten ∧
    (syncLoop w' 0 cs st).console =
        (syncOne w' i doc (syncLoop w 0 (cs.take i) st)).console ++
          (reports w (i + 1) (cs.drop (i + 1))).flatten ∧
    (∀ (j : Nat) (p : Product), (syncLoop w 0 cs st).store[j]? = some p → p._id ≠ doc._id →
      (syncLoop w' 0 cs st).store[j]? = some p) := by
  have hlen : (cs.take i).length = i := (split_at hi).2
  have hpre : syncLoop w' 0 (cs.take i) st = syncLoop w 0 (cs.take i) st := by
    apply syncLoop_congr
    · intro m _ hm
      exact hsame m (by omega)
    · exact hrender
  have hpost : ∀ X, syncLoop w' (i + 1) (cs.drop (i + 1)) X =
      syncLoop w (i + 1) (cs.drop (i + 1)) X := by
    intro X
    apply syncLoop_congr
    · intro m hm _
      exact hsame m (by omega)
    · exact hrender
  have hw := syncLoop_split w cs st i doc hi
  have hw' : syncLoop w' 0 cs st =
      syncLoop w (i + 1) (cs.drop (i + 1)) (syncOne w' i doc (syncLoop w 0 (cs.take i) st)) := by
    rw [syncLoop_split w' cs st i doc hi, hpre, hpost]
  refine ⟨?_, ?_, ?_, hw, ?_, ?_, ?_, ?_, ?_⟩
  · rw [syncOne_store, written_thrown w i doc message hthrown]
  · rw [syncOne_console, report_thrown w i doc message hthrown]
    rfl
  · intro hname hmessage
    rw [syncOne_console, report_thrown w i doc message hthrown,
      errorText_plain w doc message hname hmessage]
  · rw [hw, syncLoop_calls]
  · rw [hw', syncLoop_calls]
  · rw [hw, syncLoop_console]
  · rw [hw', syncLoop_console]
  · rw [hw, hw']
    exact agreeOff_getElem?
      (syncLoop_agreeOff w _ _ _ _ _ (syncOne_agreeOff_self w w' i doc _))

/-- The lookup of `Widget` is rejected: the line names `Widget` and the message. -/
theorem failure_isolation_witness :
    (syncOne resetWorld 0 ⟨1, "Widget", none⟩
      (syncLoop resetWorld 0 ((find widgetStore).take 0) ⟨widgetStore, [], []⟩)).console =
      (syncLoop resetWorld 0 ((find widgetStore).take 0) ⟨widgetStore, [], []⟩).console ++
        [⟨.error, "❌ Error syncing \"" ++ "Widget" ++ "\": " ++ "ECONNRESET"⟩] :=
  (failure_isolation resetWorld widgetWorld (find widgetStore) ⟨widgetStore, [], []⟩ 0
    ⟨1, "Widget", none⟩ "ECONNRESET" (by decide) (by simp [thrown, resetWorld])
    (by
      intro k hk
      simp [resetWorld, widgetWorld, hk])
    rfl).2.2.1 (by decide) (by decide)

/-- C4: when one of `MONGO_URI`, `WEAVIATE_HOST`, `WEAVIATE_API_KEY` is missing
(undefined, or empty, which `!` treats alike), the process prints the configuration
message on the error channel and exits with status 1; `main` is not invoked: the
result does not depend on the world, no external call is made and the store is as
before. -/
theorem config_gate (env : Env) (w : World) (store : List Product)
    (hmissing : falsy env.MONGO_URI = true ∨ falsy env.WEAVIATE_HOST = true ∨
      falsy env.WEAVIATE_API_KEY = true) :
    script env w store =
      { store := store, console := [⟨.error, configText⟩], calls := [], exit := 1 } := by
  unfold script
  have h : (falsy env.MONGO_URI || falsy env.WEAVIATE_HOST || falsy env.WEAVIATE_API_KEY)
      = true := by
    rcases hmissing with h | h | h <;> simp [h]
  rw [if_pos h]

/-- Without `WEAVIATE_API_KEY` the script exits with status 1 and calls nothing. -/
theorem config_gate_witness :
    script noKeyEnv widgetWorld widgetStore =
      { store := widgetStore, console := [⟨.error, configText⟩], calls := [], exit := 1 } :=
  config_gate noKeyEnv widgetWorld widgetStore (Or.inr (Or.inr rfl))

/-- C5, as stated, fails: with the three values set, `connect`, `weaviate.client` and
the candidate query succeeding and the loop run to completion, a rejected
`mongoose.disconnect` escapes `main` and the process exits with status 1, after the
candidates were looked up and updated. A value set to the empty string counts as
missing and gives status 1 as well. -/
theorem exit_status_counterexample :
    closeWorld.connect = none ∧ closeWorld.client = none ∧ closeWorld.find = none ∧
    (script widgetEnv closeWorld widgetStore).exit = 1 ∧
    Call.get "Widget" ∈ (script widgetEnv closeWorld widgetStore).calls ∧
    Call.updateOne 1 "w-100" ∈ (script widgetEnv closeWorld widgetStore).calls ∧
    emptyKeyEnv.WEAVIATE_API_KEY = some "" ∧
    (script emptyKeyEnv widgetWorld widgetStore).exit = 1 := by
  refine ⟨rfl, rfl, rfl, ?_, ?_, ?_, rfl, ?_⟩ <;> decide

/-- C5, amended: with the three values set and not empty, the process exits with
status 0 when `connect`, `weaviate.client`, the candidate query and the final
`disconnect` all succeed, whatever the lookups and updates of the loop do; it exits
with status 1, the error being the last line on the error channel, when one of the
four fails; when one of the first three fails nothing else is printed, the store is
as before and no candidate is looked up or updated; when only the final
`disconnect` fails the loop has run: the calls are those of a complete run. -/
theorem exit_status (env : Env) (w : World) (store : List Product)
    (huri : falsy env.MONGO_URI = false) (hhost : falsy env.WEAVIATE_HOST = false)
    (hkey : falsy env.WEAVIATE_API_KEY = false) :
    (w.connect = none → w.client = none → w.find = none → w.disconnect = none →
      (script env w store).exit = 0) ∧
    (∀ err, w.connect = some err ∨ (w.connect = none ∧ w.client = some err) ∨
        (w.connect = none ∧ w.client = none ∧ w.find = some err) →
      (script env w store).exit = 1 ∧
      (script env w store).console = [⟨.error, err⟩] ∧
      (script env w store).store = store ∧
      ∀ c ∈ (script env w store).calls,
        (∀ name, c ≠ .get name) ∧ (∀ id wid, c ≠ .updateOne id wid)) ∧
    (∀ err, w.connect = none → w.client = none → w.find = none → w.disconnect = some err →
      (script env w store).exit = 1 ∧
      (script env w store).console.getLast? = some ⟨.error, err⟩ ∧
      (script env w store).calls =
        [.connect (env.MONGO_URI.getD ""),
          .client (env.WEAVIATE_HOST.getD "") (env.WEAVIATE_API_KEY.getD ""), .find] ++
          (blocks w 0 (find store)).flatten ++ [.disconnect]) := by
  have hgate : (falsy env.MONGO_URI || falsy env.WEAVIATE_HOST || falsy env.WEAVIATE_API_KEY)
      = false := by simp [huri, hhost, hkey]
  refine ⟨?_, ?_, ?_⟩
  · intro h1 h2 h3 h4
    unfold script
    rw [hgate]
    simp [main, h1, h2, h3, h4]
  · intro err h
    unfold script
    rw [hgate]
    rcases h with h1 | ⟨h1, h2⟩ | ⟨h1, h2, h3⟩
    · simp [main, h1, State.call]
    · simp [main, h1, h2, State.call]
    · simp [main, h1, h2, h3, State.call]
  · intro err h1 h2 h3 h4
    have hcalls := main_calls w (env.MONGO_URI.getD "") (env.WEAVIATE_HOST.getD "")
      (env.WEAVIATE_API_KEY.getD "") ⟨store, [], []⟩ h1 h2 h3
    have hmain : (main w (env.MONGO_URI.getD "") (env.WEAVIATE_HOST.getD "")
        (env.WEAVIATE_API_KEY.getD "") ⟨store, [], []⟩).2 = .rejected err := by
      simp [main, h1, h2, h3, h4]
    unfold script
    rw [hgate]
    generalize main w (env.MONGO_URI.getD "") (env.WEAVIATE_HOST.getD "")
      (env.WEAVIATE_API_KEY.getD "") ⟨store, [], []⟩ = r at hcalls hmain
    obtain ⟨st, settled⟩ := r
    simp only at hmain hcalls
    subst hmain
    simp [hcalls]

/-- A refused connection: status 1, the error printed, nothing looked up. -/
theorem exit_status_witness :
    (script widgetEnv refusedWorld widgetStore).exit = 1 ∧
    (script widgetEnv refusedWorld widgetStore).console = [⟨.error, "ECONNREFUSED"⟩] :=
  ⟨((exit_status widgetEnv refusedWorld widgetStore rfl rfl rfl).2.1 "ECONNREFUSED"
      (Or.inl rfl)).1,
    ((exit_status widgetEnv refusedWorld widgetStore rfl rfl rfl).2.1 "ECONNREFUSED"
      (Or.inl rfl)).2.1⟩

/-- C6: after a run of `main` on a store with unique internal ids that reached the
loop, the candidate query finds at most as many records as in that run minus the
records the run updated; a second run on the store as left by the first, in any
world `w2`, prints that number as its candidate count. -/
theorem rerun_candidates (w w2 : World) (uri host apiKey : String) (store : List Product)
    (hconnect : w.connect = none) (hclient : w.client = none) (hfind : w.find = none)
    (hconnect2 : w2.connect = none) (hclient2 : w2.client = none) (hfind2 : w2.find = none)
    (hunique : (store.map Product._id).Nodup) :
    syncedCount w 0 (find store) ≤ (find store).length ∧
    (find (main w uri host apiKey ⟨store, [], []⟩).1.store).length ≤
      (find store).length - syncedCount w 0 (find store) ∧
    (main w uri host apiKey ⟨store, [], []⟩).1.console[0]? =
      some ⟨.log, foundText (find store).length⟩ ∧
    (main w2 uri host apiKey ⟨(main w uri host apiKey ⟨store, [], []⟩).1.store, [], []⟩).1.console[0]? =
      some ⟨.log, foundText (find (main w uri host apiKey ⟨store, [], []⟩).1.store).length⟩ := by
  have hcount := find_length_syncLoop w 0 (find store) (started uri host apiKey ⟨store, [], []⟩)
    hunique (find_nodup hunique) (fun d hd => mem_find.mp hd)
  have hms : (main w uri host apiKey ⟨store, [], []⟩).1.store =
      (syncLoop w 0 (find store) (started uri host apiKey ⟨store, [], []⟩)).store :=
    main_store w uri host apiKey _ hconnect hclient hfind
  rw [← hms] at hcount
  have hstart : (started uri host apiKey ⟨store, [], []⟩).store = store := rfl
  rw [hstart] at hcount
  refine ⟨by omega, by omega, ?_, ?_⟩
  · rw [main_console w uri host apiKey _ hconnect hclient hfind]
    simp
  · rw [main_console w2 uri host apiKey _ hconnect2 hclient2 hfind2]
    simp

/-- The store of three records has two candidates; the run updates one of them and
one candidate is left for the next run. -/
theorem rerun_candidates_witness :
    (find (main widgetWorld "mongodb://db" "host" "key" ⟨widgetStore, [], []⟩).1.store).length ≤
      (find widgetStore).length - syncedCount widgetWorld 0 (find widgetStore) :=
  (rerun_candidates widgetWorld widgetWorld "mongodb://db" "host" "key" widgetStore
    rfl rfl rfl rfl rfl rfl (by decide)).2.1

/-- C7: a run of `main` on a store with unique internal ids changes nothing but the
`weaviateId` of candidates. The internal ids and the names are the same, in the
same order, so no record is added or removed; a record that had a `weaviateId` is
not a candidate and is identical afterwards; any other record is identical or has
got a `weaviateId` and nothing else; and the only call to the vector store besides
the construction of the client is the lookup by the name of a candidate, the only
write being `updateOne` on the internal id of a candidate in the document store. -/
theorem frame (w : World) (uri host apiKey : String) (store : List Product)
    (hunique : (store.map Product._id).Nodup) :
    (main w uri host apiKey ⟨store, [], []⟩).1.store.map Product._id = store.map Product._id ∧
    (main w uri host apiKey ⟨store, [], []⟩).1.store.map Product.name =
      store.map Product.name ∧
    (∀ (j : Nat) (p : Product), store[j]? = some p → p.weaviateId ≠ none →
      p ∉ find store ∧ (main w uri host apiKey ⟨store, [], []⟩).1.store[j]? = some p) ∧
    (∀ (j : Nat) (p : Product), store[j]? = some p →
      (main w uri host apiKey ⟨store, [], []⟩).1.store[j]? = some p ∨
      (p ∈ find store ∧ ∃ wid, (main w uri host apiKey ⟨store, [], []⟩).1.store[j]? =
        some { p with weaviateId := some wid })) ∧
    (∀ c ∈ (main w uri host apiKey ⟨store, [], []⟩).1.calls,
      c = .connect uri ∨ c = .client host apiKey ∨ c = .find ∨ c = .disconnect ∨
      (∃ d ∈ find store, c = .get d.name) ∨
      (∃ d ∈ find store, ∃ wid, c = .updateOne d._id wid)) := by
  refine ⟨main_map_id w uri host apiKey store, main_map_name w uri host apiKey store,
    ?_, ?_, main_call w uri host apiKey store⟩
  · intro j p hj hsome
    have hnot : p ∉ find store := fun h => hsome (mem_find.mp h).2
    refine ⟨hnot, ?_⟩
    rcases main_record w uri host apiKey store hunique j p hj with h | ⟨i, _, hi, _, _⟩
    · exact h
    · exact absurd (List.getElem?_mem hi) hnot
  · intro j p hj
    rcases main_record w uri host apiKey store hunique j p hj with h | ⟨i, wid, hi, _, h⟩
    · exact Or.inl h
    · exact Or.inr ⟨List.getElem?_mem hi, wid, h⟩

/-- The record `Gadget`, already synced, is the same after the run. -/
theorem frame_witness :
    (main widgetWorld "mongodb://db" "host" "key" ⟨widgetStore, [], []⟩).1.store[1]? =
      some ⟨2, "Gadget", some "abc"⟩ :=
  ((frame widgetWorld "mongodb://db" "host" "key" widgetStore (by decide)).2.2.1 1
    ⟨2, "Gadget", some "abc"⟩ (by decide) (by decide)).2

/-- The world of the end-to-end scenario answers as the vector store holding
`Widget` would. -/
theorem widgetWorld_honours : Honours widgetWorld widgetObjects := by
  intro k name hits h
  simp only [widgetWorld] at h
  split at h
  · next hname =>
    injection h with h
    injection h with h
    subst h
    subst hname
    simp [widgetObjects]
  · injection h with h
    injection h with h
    subst h
    simp

/-- C8: when the search service honours the query, in a run of `main` on a store
with unique internal ids every record that the run changes was without `weaviateId`
and gets the identifier of an object of the vector store whose name is equal, as a
string and so with letter case, to the name of the record; a record whose name is
the name of no object is left as it is. -/
theorem name_match (w : World) (objects : List VObject) (uri host apiKey : String)
    (store : List Product) (j : Nat) (p q : Product)
    (hhonours : Honours w objects) (hunique : (store.map Product._id).Nodup)
    (hj : store[j]? = some p)
    (hq : (main w uri host apiKey ⟨store, [], []⟩).1.store[j]? = some q) :
    (q ≠ p → p.weaviateId = none ∧
      ∃ o ∈ objects, o.name = p.name ∧ q = { p with weaviateId := some o.id }) ∧
    ((∀ o ∈ objects, o.name ≠ p.name) → q = p) := by
  have key : q = p ∨ (p.weaviateId = none ∧
      ∃ o ∈ objects, o.name = p.name ∧ q = { p with weaviateId := some o.id }) := by
    rcases main_record w uri host apiKey store hunique j p hj with h | ⟨i, wid, hi, hw, h⟩
    · left
      rw [h] at hq
      exact (Option.some.inj hq).symm
    · right
      obtain ⟨hit, rest, a, hg, ha, hid, _⟩ := written_some hw
      obtain ⟨o, ho, hname, hadd⟩ := (hhonours i p.name _ hg).2 hit (List.mem_cons_self _ _)
      rw [ha] at hadd
      have hao : a = ⟨o.id⟩ := Option.some.inj hadd
      refine ⟨(mem_find.mp (List.getElem?_mem hi)).2, o, ho, hname, ?_⟩
      rw [h] at hq
      rw [← Option.some.inj hq, ← hid, hao]
  refine ⟨fun hne => ?_, fun hno => ?_⟩
  · rcases key with h | h
    · exact absurd h hne
    · exact h
  · rcases key with h | ⟨_, o, ho, hname, _⟩
    · exact h
    · exact absurd hname (hno o ho)

/-- The scenario of the specification: the service honours the query, `Widget` gets
the identifier of the object named `Widget`. -/
theorem name_match_witness :
    Honours widgetWorld widgetObjects ∧
    (main widgetWorld "mongodb://db" "host" "key" ⟨widgetStore, [], []⟩).1.store[0]? =
      some ⟨1, "Widget", some "w-100"⟩ ∧
    ∃ o ∈ widgetObjects, o.name = "Widget" ∧
      (⟨1, "Widget", some "w-100"⟩ : Product) = ⟨1, "Widget", some o.id⟩ :=
  ⟨widgetWorld_honours, by decide,
    ((name_match widgetWorld widgetObjects "mongodb://db" "host" "key" widgetStore 0
      ⟨1, "Widget", none⟩ ⟨1, "Widget", some "w-100"⟩ widgetWorld_honours (by decide)
      (by decide) (by decide)).1 (by decide)).2⟩

/-- C9: when `main` reaches the loop, its calls are `connect`, `weaviate.client`, the
candidate query, then one block per candidate in the order of the candidates, then
`disconnect`. The block of a candidate is its lookup alone, or its lookup followed by
one `updateOne` on its own internal id, the latter only when the lookup returned a
non-empty hit list. With unique internal ids no record is the target of more than
one `updateOne`. -/
theorem sequential_calls (w : World) (uri host apiKey : String) (store : List Product)
    (hconnect : w.connect = none) (hclient : w.client = none) (hfind : w.find = none) :
    (∃ bs : List (List Call),
      (main w uri host apiKey ⟨store, [], []⟩).1.calls =
        [.connect uri, .client host apiKey, .find] ++ bs.flatten ++ [.disconnect] ∧
      bs.length = (find store).length ∧
      ∀ (i : Nat) (doc : Product), (find store)[i]? = some doc →
        bs[i]? = some [.get doc.name] ∨
        ∃ hit rest a, w.get i doc.name = .resolved (.ok (hit :: rest)) ∧
          hit._additional = some a ∧
          bs[i]? = some [.get doc.name, .updateOne doc._id a.id]) ∧
    ((store.map Product._id).Nodup → ∀ id,
      List.countP (Call.writes id) (main w uri host apiKey ⟨store, [], []⟩).1.calls ≤ 1) := by
  have hcalls : (main w uri host apiKey ⟨store, [], []⟩).1.calls =
      [.connect uri, .client host apiKey, .find] ++ (blocks w 0 (find store)).flatten ++
        [.disconnect] := by
    rw [main_calls w uri host apiKey _ hconnect hclient hfind]
    rfl
  refine ⟨⟨blocks w 0 (find store), hcalls, blocks_length w 0 (find store), ?_⟩, ?_⟩
  · intro i doc hi
    rw [blocks_getElem? w 0 (find store) i doc hi, Nat.zero_add]
    rcases block_eq w i doc with h | ⟨hit, rest, a, hg, ha, h⟩
    · exact Or.inl (congrArg some h)
    · exact Or.inr ⟨hit, rest, a, hg, ha, congrArg some h⟩
  · intro hunique id
    rw [hcalls]
    simp only [List.countP_append]
    have h1 := blocks_countP w 0 (find store) id
    have h2 := List.nodup_iff_count_le_one.mp (find_nodup hunique) id
    have h3 : List.countP (Call.writes id) [Call.connect uri, Call.client host apiKey, Call.find]
        = 0 := by simp [Call.writes]
    have h4 : List.countP (Call.writes id) [Call.disconnect] = 0 := by simp [Call.writes]
    omega

/-- The calls of the run of the end-to-end scenario. -/
theorem sequential_calls_witness :
    List.countP (Call.writes 1)
      (main widgetWorld "mongodb://db" "host" "key" ⟨widgetStore, [], []⟩).1.calls ≤ 1 :=
  (sequential_calls widgetWorld "mongodb://db" "host" "key" widgetStore rfl rfl rfl).2
    (by decide) 1

/-- C10, as stated, fails: for the same record at the same position, a lookup with no
match writes one line with `console.warn`, "No Weaviate object found ...", and a
rejected lookup writes one line with `console.error`, "Error syncing ...": neither
the console method nor the form of the message is the same. -/
theorem no_differentiation_counterexample :
    thrown widgetWorld 0 ⟨3, "Unknown", none⟩ = none ∧
    thrown resetWorld 0 ⟨3, "Unknown", none⟩ = some "ECONNRESET" ∧
    report widgetWorld 0 ⟨3, "Unknown", none⟩ =
      [⟨.warn, "⚠️  No Weaviate object found for name=\"Unknown\""⟩] ∧
    report resetWorld 0 ⟨3, "Unknown", none⟩ =
      [⟨.error, "❌ Error syncing \"Unknown\": ECONNRESET"⟩] ∧
    (report widgetWorld 0 ⟨3, "Unknown", none⟩).map Line.channel ≠
      (report resetWorld 0 ⟨3, "Unknown", none⟩).map Line.channel := by
  refine ⟨?_, ?_, ?_, ?_, ?_⟩ <;> decide

/-- C10, amended: for every candidate, a lookup without match and an error raised by
the lookup or the update both leave the store as it is, so the record stays without
`weaviateId`, and the loop goes on with the next candidate; the two are logged
differently. The first gives one `console.warn` line,
`⚠️  No Weaviate object found for name="<name>"`. The second gives one
`console.error` line, the one `util.format` makes of the format string
`❌ Error syncing "<name>":` and the message, which is
`❌ Error syncing "<name>": <message>` when the name holds no `%` and the message is
not empty. -/
theorem recoverable_outcomes (w : World) (k : Nat) (doc : Product) (st : State) :
    (w.get k doc.name = .resolved (.ok []) →
      syncOne w k doc st =
        State.print (State.call st (.get doc.name)) .warn
          ("⚠️  No Weaviate object found for name=\"" ++ doc.name ++ "\"")) ∧
    (∀ message, thrown w k doc = some message →
      (syncOne w k doc st).store = st.store ∧
      (syncOne w k doc st).console = st.console ++
        [⟨.error, format w ("❌ Error syncing \"" ++ doc.name ++ "\":") message⟩] ∧
      ('%' ∉ doc.name.data → message ≠ "" →
        (syncOne w k doc st).console = st.console ++
          [⟨.error, "❌ Error syncing \"" ++ doc.name ++ "\": " ++ message⟩])) ∧
    (∀ rest, syncLoop w k (doc :: rest) st = syncLoop w (k + 1) rest (syncOne w k doc st)) ∧
    (∀ message,
      (⟨.warn, "⚠️  No Weaviate object found for name=\"" ++ doc.name ++ "\""⟩ : Line) ≠
        ⟨.error, format w ("❌ Error syncing \"" ++ doc.name ++ "\":") message⟩) := by
  refine ⟨?_, ?_, ?_, ?_⟩
  · intro hget
    unfold syncOne
    simp [hget, noMatchText]
  · intro message hthrown
    refine ⟨?_, ?_, ?_⟩
    · rw [syncOne_store, written_thrown w k doc message hthrown]
    · rw [syncOne_console, report_thrown w k doc message hthrown]
      rfl
    · intro hname hmessage
      rw [syncOne_console, report_thrown w k doc message hthrown,
        errorText_plain w doc message hname hmessage]
  · intro rest
    rfl
  · intro message h
    injection h with h1 _
    cases h1

/-- The record `Unknown` has no match: one warning, the store untouched. -/
theorem recoverable_outcomes_witness :
    syncOne widgetWorld 1 ⟨3, "Unknown", none⟩ ⟨widgetStore, [], []⟩ =
      ⟨widgetStore, [⟨.warn, "⚠️  No Weaviate object found for name=\"Unknown\""⟩],
        [.get "Unknown"]⟩ :=
  (recoverable_outcomes widgetWorld 1 ⟨3, "Unknown", none⟩ ⟨widgetStore, [], []⟩).1
    (by simp [widgetWorld])

end SyncWeaviateIds
